import Mathlib

/-!
Shallow embedding of `packages/lib/file-api-driver-minio.js` (the
`FileApiDriverMinio` remote object-store adapter) and proofs about the
behaviour its specification describes.

JavaScript values that matter to the adapter (error shapes, metadata
records, option bags) are modelled by small inductive types; JavaScript
truthiness and property access are made explicit, and operations that can
throw are modelled in `Except`.  Asynchronous transport calls are modelled
by passing the outcome of each underlying request (or a responder
function) as an explicit argument.
-/

set_option autoImplicit false

/-- A primitive JavaScript value, as it can appear in the `name`, `code`,
`Code` or `message` fields of a failure object. -/
inductive JsVal where
  | undefined
  | nullv
  | str (s : String)
  | num (n : Int)
  | boolv (b : Bool)
deriving DecidableEq, Repr

/-- JavaScript truthiness of a primitive value. -/
def JsVal.truthy : JsVal → Bool
  | .undefined => false
  | .nullv => false
  | .str s => s ≠ ""
  | .num n => n ≠ 0
  | .boolv b => b

/-- A JavaScript runtime exception (e.g. the `TypeError` raised by calling
`.indexOf` on a non-string, or by reading a property of `undefined`). -/
inductive JsExn where
  | typeError
deriving DecidableEq, Repr

/-- A failure value as the adapter can observe it: `undefined`, `null`, a
thrown primitive, or an object carrying the fields the driver inspects
(`name`, `code`, `Code`, `message`, and the HTTP response body `output`). -/
inductive ErrVal where
  | undefined
  | nullv
  | prim (v : JsVal)
  | obj (name code Code message : JsVal) (output : Option String)
deriving DecidableEq, Repr

/-- JavaScript truthiness of a failure value (objects are always truthy). -/
def ErrVal.truthy : ErrVal → Bool
  | .undefined => false
  | .nullv => false
  | .prim v => v.truthy
  | .obj _ _ _ _ _ => true

/-- Property read `error.name`; primitives have no such property
(`undefined`), and the callers below only read it on non-nullish values. -/
def ErrVal.nameField : ErrVal → JsVal
  | .obj n _ _ _ _ => n
  | _ => .undefined

/-- Property read `error.code`. -/
def ErrVal.codeField : ErrVal → JsVal
  | .obj _ c _ _ _ => c
  | _ => .undefined

/-- Property read `error.Code`. -/
def ErrVal.CodeField : ErrVal → JsVal
  | .obj _ _ C _ _ => C
  | _ => .undefined

/-- Property read `error.message`. -/
def ErrVal.messageField : ErrVal → JsVal
  | .obj _ _ _ m _ => m
  | _ => .undefined

/-- Property read `error.output` (the HTTP response body, when present). -/
def ErrVal.outputField : ErrVal → Option String
  | .obj _ _ _ _ o => o
  | _ => none

/-- Checked property read of `error.name`: reading a property of
`undefined` or `null` throws a `TypeError` in JavaScript. -/
def ErrVal.nameChecked : ErrVal → Except JsExn JsVal
  | .undefined => .error .typeError
  | .nullv => .error .typeError
  | e => .ok (e.nameField)

/-- Substring containment on character sequences: `pat` occurs in `l`
(the empty pattern occurs everywhere). -/
def containsSub (l pat : List Char) : Bool :=
  match l with
  | [] => pat.isEmpty
  | _ :: rest => List.isPrefixOf pat l || containsSub rest pat

/-- JavaScript `s.indexOf(pat) >= 0`: substring containment (an empty
pattern is found at index 0). -/
def jsContains (s pat : String) : Bool :=
  containsSub s.data pat.data

/-- JavaScript `v.indexOf(pat) >= 0` where `v` is an arbitrary field value:
only strings have the string `indexOf`; on the other (truthy) primitives
the call throws a `TypeError`. -/
def jsIndexOfGe0 (v : JsVal) (pat : String) : Except JsExn Bool :=
  match v with
  | .str s => .ok (jsContains s pat)
  | _ => .error .typeError

/-- `hasErrorCode_(error, errorCode)` from the driver: returns `false` for
a falsy error, otherwise inspects in order the first truthy field among
`name`, `code`, `Code` and asks whether it contains `errorCode`; with no
truthy recognized field it returns `false`. -/
def hasErrorCode (error : ErrVal) (errorCode : String) : Except JsExn Bool :=
  if error.truthy = false then .ok false
  else if error.nameField.truthy then jsIndexOfGe0 error.nameField errorCode
  else if error.codeField.truthy then jsIndexOfGe0 error.codeField errorCode
  else if error.CodeField.truthy then jsIndexOfGe0 error.CodeField errorCode
  else .ok false

/-- The first truthy field among `name`, `code`, `Code` of a failure
object, i.e. the one field `hasErrorCode_` inspects (if any). -/
def inspectedField (e : ErrVal) : Option JsVal :=
  match e with
  | .obj n c C _ _ =>
    if n.truthy then some n
    else if c.truthy then some c
    else if C.truthy then some C
    else none
  | _ => none

/-- An error as propagated by an adapter operation: either the raw failure
value rethrown, or a JavaScript exception raised while classifying it. -/
inductive Thrown where
  | raw (e : ErrVal)
  | exn (x : JsExn)
deriving DecidableEq, Repr

/-- `makePath_(path)` from the driver: a falsy path (absent or the empty
string) yields the empty key, any other path is passed through. -/
def makePath (path : Option String) : String :=
  match path with
  | none => ""
  | some p => if p = "" then "" else p

/-- The last character of a string, if any (JavaScript
`s[s.length - 1]`). -/
def lastChar (s : String) : Option Char :=
  s.data.getLast?

/-- The key that `list(path)` passes to the underlying listing
operation: the normalized path, with a slash appended when it is
non-empty and its last character is not already a slash. -/
def listPfx (path : Option String) : String :=
  let p := makePath path
  if 0 < p.length ∧ lastChar p ≠ some '/' then p ++ "/" else p

/-- Whether a string ends in exactly one trailing slash (its last
character is a separator and the character before, if any, is not). -/
def endsInExactlyOneSlash (s : String) : Bool :=
  decide (lastChar s = some '/' ∧ s.data.dropLast.getLast? ≠ some '/')

/-- Modelled from the spec: the `basename` helper from
`packages/lib/path-utils` (not under `src/`); it reduces a path to its
final slash-separated segment. -/
def basename (p : String) : String :=
  ⟨(p.data.reverse.takeWhile (fun c => c ≠ '/')).reverse⟩

/-- The metadata argument of `metadataToStat_`: `undefined` (absent), a
bare key string (as produced by the listing), or a metadata object whose
`lastModified` field may be present. Timestamps are modelled as natural
numbers of milliseconds. -/
inductive MdVal where
  | undefined
  | str (s : String)
  | obj (lastModified : Option Nat)
deriving DecidableEq, Repr

/-- JavaScript truthiness of a metadata value — the presence test
`if (md)` used by `metadataToStat_`. -/
def MdVal.truthy : MdVal → Bool
  | .undefined => false
  | .str s => s ≠ ""
  | .obj _ => true

/-- Property read of the `lastModified` field: reading a property of `undefined`
throws, a string has no such property, an object yields its field. -/
def MdVal.lastModifiedField : MdVal → Except JsExn (Option Nat)
  | .undefined => .error .typeError
  | .str _ => .ok none
  | .obj lm => .ok lm

/-- The normalized file status produced by the driver. -/
structure Stat where
  path : String
  updated_time : Nat
  isDeleted : Bool
  isDir : Bool
deriving DecidableEq, Repr

/-- `metadataToStat_(md, path)` from the driver, with `now` the current
time: a truthy metadata value yields a live status whose timestamp is the
`lastModified` field of the metadata when that field is truthy and `now` otherwise; a
falsy metadata value yields a deleted status timestamped `now`. -/
def metadataToStat (md : MdVal) (path : String) (now : Nat) : Except JsExn Stat :=
  let relativePath := basename path
  if md.truthy then
    match md.lastModifiedField with
    | .error x => .error x
    | .ok lm =>
      let t := match lm with
        | some v => v
        | none => now
      .ok { path := relativePath, updated_time := t, isDeleted := false, isDir := false }
  else
    .ok { path := relativePath, updated_time := now, isDeleted := true, isDir := false }

/-- `metadataToStats_(mds)` from the driver: each element of the listing
(a bare key string) is passed to `metadataToStat_` both as metadata and as
path. -/
def metadataToStats (mds : List String) (now : Nat) : Except JsExn (List Stat) :=
  match mds with
  | [] => .ok []
  | m :: rest =>
    match metadataToStat (MdVal.str m) m now with
    | .error x => .error x
    | .ok s =>
      match metadataToStats rest now with
      | .error x => .error x
      | .ok out => .ok (s :: out)

/-- An object in the store as reported by the listing stream of the transport:
a key name and an optional last-modified timestamp. -/
structure StoreObj where
  name : String
  lastModified : Option Nat
deriving DecidableEq, Repr

/-- JavaScript string prefix test, on the character sequences. -/
def jsStartsWith (s pfx : String) : Bool :=
  List.isPrefixOf pfx.data s.data

/-- `listObjects(key)` from the driver: collects, from the recursive
listing stream of every object whose key starts with the given prefix,
only `obj.name` — the last-modified metadata carried by the stream is
discarded. -/
def listObjectsNames (store : List StoreObj) (pfx : String) : List String :=
  (store.filter (fun o => jsStartsWith o.name pfx)).map (fun o => o.name)

/-- The listing result shape returned by `list` (`context` is always the
empty object and is omitted). -/
structure ListResult where
  items : List Stat
  hasMore : Bool
deriving DecidableEq, Repr

/-- `list(path)` from the driver: normalizes the path to a prefix,
collects the key names under it, and translates each name through
`metadataToStats_`. -/
def listOp (store : List StoreObj) (path : Option String) (now : Nat) :
    Except JsExn ListResult :=
  match metadataToStats (listObjectsNames store (listPfx path)) now with
  | .error x => .error x
  | .ok items => .ok { items := items, hasMore := false }

/-- `stat(path)` from the driver, given the outcome of the underlying
`statObject` call: on success the metadata is translated; on failure a
classified `NotFound` is swallowed (stat resolves with `undefined`, the
absent sentinel, modelled as `none`), any other failure is rethrown, and a
classification exception propagates as such. -/
def statOp (lookup : Except ErrVal MdVal) (path : String) (now : Nat) :
    Except Thrown (Option Stat) :=
  match lookup with
  | .ok md =>
    match metadataToStat md path now with
    | .ok s => .ok (some s)
    | .error x => .error (.exn x)
  | .error e =>
    match hasErrorCode e "NotFound" with
    | .ok true => .ok none
    | .ok false => .error (.raw e)
    | .error x => .error (.exn x)

/-- The option bag accepted by `get`. -/
structure GetOptions where
  target : Option String
  responseFormat : Option String
deriving DecidableEq, Repr

/-- The outcome of a `get` call, distinguishing the values it can resolve
with (content, the explicit `null` of the `NoSuchKey` case, the implicit
`undefined` of a fall-through) from the values it can throw (the raw
failure, a plain string body or message, and the domain `JoplinError`
carrying a message and the `rejectedByTarget` marker). -/
inductive GetOut where
  | retContent (s : String)
  | retNull
  | retUndef
  | thrRaw (e : ErrVal)
  | thrStr (s : String)
  | thrMessage (v : JsVal)
  | thrJoplin (message code : String)
deriving DecidableEq, Repr

/-- The transport requests `get` can issue: obtaining a presigned URL and
the secondary blob/text fetches against it. -/
inductive GetAction where
  | presignA (key : String)
  | fetchBlobA (url : String)
  | fetchTextA (url : String)
deriving DecidableEq, Repr

/-- The external collaborators of `get`: the presign operation, the two
fetch shapes (text fetch yields HTTP-ok flag, status text and body), and
the XML parser, modelled as the map from a response body to the parsed
`Error` field of the parsed payload. -/
structure GetEnv where
  presign : String → Except ErrVal String
  fetchBlob : String → Except ErrVal String
  fetchText : String → Except ErrVal (Bool × String × String)
  parseErrField : String → ErrVal

/-- The `catch` block of `get`: a `FetchError` throws the `message` field
of the error; otherwise, when the failure carries a truthy response body, the
body is parsed and dispatched on its error code — `AuthorizationHeaderMalformed`
throws the raw body, `NoSuchKey` returns `null`, `AccessDenied` throws the
domain permission error, and any other code falls through the block,
making `get` resolve with `undefined`; with no truthy body the raw failure
is rethrown (the inner `throw error.output` in the `else` branch of the source
is unreachable there, since that branch is only taken when `error.output`
is falsy). -/
def getCatch (parseErrField : String → ErrVal) (error : ErrVal) :
    Except JsExn GetOut := do
  let nm ← error.nameChecked
  if nm = JsVal.str "FetchError" then
    pure (GetOut.thrMessage error.messageField)
  else
    match error.outputField with
    | some body =>
      if body = "" then
        pure (GetOut.thrRaw error)
      else
        let parsed := parseErrField body
        let b1 ← hasErrorCode parsed "AuthorizationHeaderMalformed"
        if b1 then pure (GetOut.thrStr body)
        else
          let b2 ← hasErrorCode parsed "NoSuchKey"
          if b2 then pure GetOut.retNull
          else
            let b3 ← hasErrorCode parsed "AccessDenied"
            if b3 then
              pure (GetOut.thrJoplin "Do not have proper permissions to Bucket" "rejectedByTarget")
            else pure GetOut.retUndef
    | none => pure (GetOut.thrRaw error)

/-- The `try` block of `get`: obtain a presigned URL for the normalized
path; for a `file` target fetch a blob, for an effective `text`
response format (the default applied by the source when `responseFormat`
is absent or falsy)
fetch text and turn a non-ok HTTP response into a thrown
`{name: statusText, output: body}` object; any other response format
performs no fetch and returns the initial `null`.  The second component
records the transport requests issued, in order. -/
def getTry (env : GetEnv) (path : Option String) (options : Option GetOptions) :
    Except ErrVal GetOut × List GetAction :=
  let remotePath := makePath path
  let opts := match options with
    | none => GetOptions.mk none none
    | some o => o
  let responseFormat := match opts.responseFormat with
    | none => "text"
    | some s => if s = "" then "text" else s
  match env.presign remotePath with
  | .error e => (.error e, [.presignA remotePath])
  | .ok s3Url =>
    if opts.target = some "file" then
      match env.fetchBlob s3Url with
      | .ok blob => (.ok (.retContent blob), [.presignA remotePath, .fetchBlobA s3Url])
      | .error e => (.error e, [.presignA remotePath, .fetchBlobA s3Url])
    else if responseFormat = "text" then
      match env.fetchText s3Url with
      | .ok (okFlag, statusText, body) =>
        if okFlag then (.ok (.retContent body), [.presignA remotePath, .fetchTextA s3Url])
        else (.error (ErrVal.obj (JsVal.str statusText) JsVal.undefined JsVal.undefined JsVal.undefined (some body)),
              [.presignA remotePath, .fetchTextA s3Url])
      | .error e => (.error e, [.presignA remotePath, .fetchTextA s3Url])
    else
      (.ok .retNull, [.presignA remotePath])

/-- `get(path, options)` from the driver: the try block, with failures
routed through the catch block. -/
def getOp (env : GetEnv) (path : Option String) (options : Option GetOptions) :
    Except JsExn GetOut × List GetAction :=
  match getTry env path options with
  | (.ok out, tr) => (.ok out, tr)
  | (.error e, tr) => (getCatch env.parseErrField e, tr)

/-- The hard batch size limit of the provider (`S3_MAX_DELETES`). -/
def S3_MAX_DELETES : Nat := 1000

/-- A deletion record `{Key: path}` as `batchDeletes` wraps each path. -/
structure DelKey where
  Key : String
deriving DecidableEq, Repr

/-- The chunking performed by the `batchDeletes` loop
(`keys.splice(0, S3_MAX_DELETES)` until the list is empty): successive
blocks of at most `S3_MAX_DELETES` records taken from the front. -/
def chunksOf : List DelKey → List (List DelKey)
  | [] => []
  | k :: ks =>
    ((k :: ks).take S3_MAX_DELETES) :: chunksOf ((k :: ks).drop S3_MAX_DELETES)
termination_by l => l.length
decreasing_by
  simp [S3_MAX_DELETES]
  omega

/-- The `while` loop of `batchDeletes`, given a responder describing the
outcome of each `removeObjects` provider call (`none` = success): returns
the chunks submitted, in order, together with the propagated error, if
any.  A failed chunk classified `NoSuchKey` is swallowed and the loop
continues; any other failure (or a classification exception) stops the
loop and propagates. -/
def batchGo (respond : List DelKey → Option ErrVal) :
    List DelKey → List (List DelKey) × Option Thrown
  | [] => ([], none)
  | k :: ks =>
    match respond ((k :: ks).take S3_MAX_DELETES) with
    | none =>
      let r := batchGo respond ((k :: ks).drop S3_MAX_DELETES)
      (((k :: ks).take S3_MAX_DELETES) :: r.1, r.2)
    | some e =>
      match hasErrorCode e "NoSuchKey" with
      | .ok true =>
        let r := batchGo respond ((k :: ks).drop S3_MAX_DELETES)
        (((k :: ks).take S3_MAX_DELETES) :: r.1, r.2)
      | .ok false => ([(k :: ks).take S3_MAX_DELETES], some (.raw e))
      | .error x => ([(k :: ks).take S3_MAX_DELETES], some (.exn x))
termination_by l => l.length
decreasing_by
  all_goals simp [S3_MAX_DELETES]
  all_goals omega

/-- `batchDeletes(paths)` from the driver: wrap every path as a `{Key}`
record and run the chunked deletion loop. -/
def batchDeletes (respond : List DelKey → Option ErrVal) (paths : List String) :
    List (List DelKey) × Option Thrown :=
  batchGo respond (paths.map DelKey.mk)

/-- The observable outcome of `move(oldPath, newPath)`: whether the call
resolves or throws, and whether the cleanup delete of the old key was
initiated. -/
structure MoveOut where
  result : Except Thrown Unit
  deleteIssued : Bool
deriving Repr

/-- `move(oldPath, newPath)` from the driver, given the outcome of the
underlying `copyObject` call and of the cleanup `delete` of the old key:
on a successful copy the delete is invoked without `await`, so its outcome
never reaches `move`, which resolves; a copy failure classified
`NoSuchKey` is swallowed, any other copy failure is rethrown. -/
def moveOp (copyRes : Except ErrVal Unit) (_deleteRes : Except ErrVal Unit) : MoveOut :=
  match copyRes with
  | .ok _ =>
    -- `this.delete(oldPath)` is not awaited: `deleteRes` is not consulted
    { result := .ok (), deleteIssued := true }
  | .error e =>
    match hasErrorCode e "NoSuchKey" with
    | .ok true => { result := .ok (), deleteIssued := false }
    | .ok false => { result := .error (.raw e), deleteIssued := false }
    | .error x => { result := .error (.exn x), deleteIssued := false }

/-- The response shape `clearRoot` reads from its recursive listing: an
object whose `Contents` field may be absent. -/
structure ListV2Response where
  Contents : Option (List StoreObj)
deriving DecidableEq, Repr

/-- `clearRoot()` from the driver, given the listing response: defaults an
absent `Contents` to the empty list, projects every entry to its name and
submits the whole key list in a single `removeObjects` provider call (the
call is not awaited; it is not routed through `batchDeletes`).  The result
is the list of delete-many provider calls issued, each with its key
list. -/
def clearRoot (resp : ListV2Response) : List (List String) :=
  let contents := resp.Contents.getD []
  [contents.map (fun c => c.name)]

/-- The effect of a sequence of delete-many calls on the store: an object
survives when its name is in none of the submitted key lists. -/
def applyBatchDeletes (store : List StoreObj) (calls : List (List String)) :
    List StoreObj :=
  store.filter (fun o => !(calls.flatten.contains o.name))

/-- A concrete store of 1001 objects, used to exercise `clearRoot` above
the provider batch limit. -/
def bigStore : List StoreObj :=
  (List.range 1001).map (fun i => { name := toString i, lastModified := none })

/-- A concrete `get` environment in which the presign succeeds and the
text fetch returns a non-ok HTTP response whose body is the provider XML
payload for the unrecognized code `InternalError`; the parser model maps
that body to the corresponding parsed `Error` object. -/
def internalErrEnv : GetEnv :=
  { presign := fun _ => Except.ok "https://signed"
    fetchBlob := fun _ => Except.error ErrVal.undefined
    fetchText := fun _ =>
      Except.ok (false, "Internal Server Error", "<Error><Code>InternalError</Code></Error>")
    parseErrField := fun body =>
      if body = "<Error><Code>InternalError</Code></Error>" then
        ErrVal.obj JsVal.undefined JsVal.undefined (JsVal.str "InternalError") JsVal.undefined none
      else ErrVal.undefined }

/-- A concrete `get` environment in which every transport operation
succeeds, used to witness the no-fetch path of `get`. -/
def simpleGetEnv : GetEnv :=
  { presign := fun _ => Except.ok "https://signed"
    fetchBlob := fun _ => Except.ok ""
    fetchText := fun _ => Except.ok (true, "OK", "")
    parseErrField := fun _ => ErrVal.undefined }

/-! ## Helper lemmas -/

/-- A non-empty string has a non-empty character list. -/
theorem strNe_data (p : String) (hp : p ≠ "") : p.data ≠ [] := by
  intro h
  exact hp (String.ext h)

/-- The chunks concatenate, in order, to the original key list. -/
theorem chunksOf_join (l : List DelKey) : (chunksOf l).flatten = l := by
  match l with
  | [] => simp [chunksOf]
  | k :: ks =>
    have ih := chunksOf_join ((k :: ks).drop S3_MAX_DELETES)
    rw [chunksOf]
    simp [ih]
termination_by l.length
decreasing_by
  simp [S3_MAX_DELETES]
  omega

/-- Every chunk respects the provider batch limit. -/
theorem chunksOf_mem_len (l : List DelKey) (c : List DelKey) (hc : c ∈ chunksOf l) :
    c.length ≤ S3_MAX_DELETES := by
  match l with
  | [] => simp [chunksOf] at hc
  | k :: ks =>
    rw [chunksOf] at hc
    rcases List.mem_cons.mp hc with h | h
    · subst h
      simp [List.length_take_le]
    · exact chunksOf_mem_len _ _ h
termination_by l.length
decreasing_by
  simp [S3_MAX_DELETES]
  omega

/-- When every provider failure is classified `NoSuchKey`, the loop
swallows them all: every chunk is submitted and no error propagates. -/
theorem batchGo_all_ok (respond : List DelKey → Option ErrVal)
    (hresp : ∀ c e, respond c = some e → hasErrorCode e "NoSuchKey" = Except.ok true)
    (keys : List DelKey) : batchGo respond keys = (chunksOf keys, none) := by
  match keys with
  | [] => simp [batchGo, chunksOf]
  | k :: ks =>
    have ih := batchGo_all_ok respond hresp ((k :: ks).drop S3_MAX_DELETES)
    rw [batchGo, chunksOf]
    cases hr : respond ((k :: ks).take S3_MAX_DELETES) with
    | none => simp [ih]
    | some e => simp [hresp _ _ hr, ih]
termination_by keys.length
decreasing_by
  simp [S3_MAX_DELETES]
  omega

/-- Unfolding `chunksOf` on a replicated list. -/
theorem chunksOf_replicate (n : Nat) (x : DelKey) (hn : n ≠ 0) :
    chunksOf (List.replicate n x)
      = List.replicate (min S3_MAX_DELETES n) x
          :: chunksOf (List.replicate (n - S3_MAX_DELETES) x) := by
  obtain ⟨m, rfl⟩ : ∃ m, n = m + 1 := ⟨n - 1, by omega⟩
  rw [List.replicate_succ, chunksOf, ← List.replicate_succ, List.take_replicate,
    List.drop_replicate]

/-- 2500 identical keys are chunked as 1000, 1000, 500. -/
theorem chunksOf_repl2500 :
    chunksOf (List.replicate 2500 (DelKey.mk "k"))
      = [List.replicate 1000 (DelKey.mk "k"), List.replicate 1000 (DelKey.mk "k"),
         List.replicate 500 (DelKey.mk "k")] := by
  rw [chunksOf_replicate 2500 _ (by norm_num)]
  norm_num [S3_MAX_DELETES]
  rw [chunksOf_replicate 1500 _ (by norm_num)]
  norm_num [S3_MAX_DELETES]
  rw [chunksOf_replicate 500 _ (by norm_num)]
  have h0 : (500 - S3_MAX_DELETES : Nat) = 0 := by norm_num [S3_MAX_DELETES]
  rw [h0, List.replicate_zero, chunksOf]
  norm_num [S3_MAX_DELETES]

/-- A first chunk whose failure is not classified `NoSuchKey` stops the
loop: only that chunk was submitted and its raw error propagates. -/
theorem batchGo_abort (respond : List DelKey → Option ErrVal)
    (k : DelKey) (ks : List DelKey) (e : ErrVal)
    (hr : respond ((k :: ks).take S3_MAX_DELETES) = some e)
    (he : hasErrorCode e "NoSuchKey" = Except.ok false) :
    batchGo respond (k :: ks) = ([(k :: ks).take S3_MAX_DELETES], some (Thrown.raw e)) := by
  rw [batchGo, hr]
  simp [he]

/-- A short non-empty list forms a single chunk. -/
theorem chunksOf_small (l : List DelKey) (h1 : l ≠ []) (h2 : l.length ≤ S3_MAX_DELETES) :
    chunksOf l = [l] := by
  match l with
  | k :: ks =>
    rw [chunksOf, List.take_of_length_le h2, List.drop_eq_nil_of_le h2, chunksOf]

/-- Translating a bare key string never fails and stamps the current
time. -/
theorem metadataToStat_str_time (m : String) (now : Nat) :
    ∃ s, metadataToStat (MdVal.str m) m now = Except.ok s ∧ s.updated_time = now := by
  by_cases hm : m = ""
  · subst hm; exact ⟨_, rfl, rfl⟩
  · refine ⟨⟨basename m, now, false, false⟩, ?_, rfl⟩
    simp [metadataToStat, MdVal.truthy, hm, MdVal.lastModifiedField]

/-- The timestamps of a translated listing are all the current time. -/
theorem metadataToStats_times (mds : List String) (now : Nat) :
    Except.map (fun l => List.map Stat.updated_time l) (metadataToStats mds now)
      = Except.ok (mds.map (fun _ => now)) := by
  induction mds with
  | nil => rfl
  | cons m rest ih =>
    obtain ⟨s, hs, ht⟩ := metadataToStat_str_time m now
    unfold metadataToStats
    rw [hs]
    cases hmr : metadataToStats rest now with
    | ok l =>
      rw [hmr] at ih
      simp [Except.map] at ih ⊢
      simp [ht, ih]
    | error x =>
      rw [hmr] at ih
      simp [Except.map] at ih

/-! ## Claims -/

/-- Claim C1 (code bug): the claim says that on a `get` failure carrying a
response body, any parsed shape other than `AuthorizationHeaderMalformed`,
`NoSuchKey` and `AccessDenied` is rethrown as-is. The code instead falls
through its `catch` block for such shapes (the rethrow branch is only
reachable when the body is absent), so `get` resolves with `undefined`,
silently swallowing the failure: here, an HTTP error whose body parses to
the unrecognized code `InternalError` makes `get` return `undefined`
(`retUndef`) rather than throw. -/
theorem get_unrecognized_error_code_swallowed :
    getOp internalErrEnv (some "k") none
      = (Except.ok GetOut.retUndef,
         [GetAction.presignA "k", GetAction.fetchTextA "https://signed"]) := rfl

/-- Claim C2 (counterexample): on a bucket with 1001 objects the claim
asks for `ceil(1001/1000) = 2` batch-delete calls, but `clearRoot` issues
exactly one provider call. -/
theorem clearRoot_not_chunked_cex :
    (clearRoot { Contents := some bigStore }).length = 1
  ∧ (bigStore.length + 999) / 1000 = 2
  ∧ (1 : Nat) ≠ 2 := by
  refine ⟨rfl, ?_, by norm_num⟩
  have h : bigStore.length = 1001 := by simp [bigStore]
  rw [h]

/-- Claim C2 (amended): `clearRoot` lists every key from the root and
submits the full key list in exactly one delete-many provider call,
regardless of the number of objects — it does not chunk into
`ceil(N/1000)` batches; under a provider that deletes every submitted key,
no object remains; an absent `Contents` yields one call with no keys. -/
theorem clearRoot_single_call (contents : List StoreObj) :
    clearRoot { Contents := some contents } = [contents.map StoreObj.name]
  ∧ (clearRoot { Contents := some contents }).length = 1
  ∧ applyBatchDeletes contents (clearRoot { Contents := some contents }) = []
  ∧ clearRoot { Contents := none } = [[]] := by
  refine ⟨rfl, rfl, ?_, rfl⟩
  unfold applyBatchDeletes clearRoot
  rw [List.filter_eq_nil_iff]
  intro o ho
  simp only [Option.getD_some, List.flatten, List.append_nil, Bool.not_eq_true']
  rw [Bool.not_eq_false]
  exact List.elem_eq_true_of_mem (List.mem_map_of_mem StoreObj.name ho)

/-- Claim C3 (confirmed): `batchDeletes` takes chunks of at most 1000 keys
from the front of the wrapped key list, in input order, until exhaustion
(2500 keys give exactly the sizes 1000, 1000, 500); the loop equals the
chunk-then-submit run in which a chunk failure classified `NoSuchKey`
(the code realizes the claimed `NotFound` classification through the
`NoSuchKey` code) is swallowed and the remaining chunks are still
submitted, while any other failure propagates and aborts the remaining
chunks. -/
theorem batchDeletes_spec :
    (∀ paths : List String, (chunksOf (paths.map DelKey.mk)).flatten = paths.map DelKey.mk)
  ∧ (∀ (paths : List String) (c : List DelKey),
       c ∈ chunksOf (paths.map DelKey.mk) → c.length ≤ S3_MAX_DELETES)
  ∧ ((batchDeletes (fun _ => none) (List.replicate 2500 "k")).1.map List.length
       = [1000, 1000, 500]
     ∧ (batchDeletes (fun _ => none) (List.replicate 2500 "k")).2 = none)
  ∧ (∀ (respond : List DelKey → Option ErrVal) (paths : List String),
       (∀ c e, respond c = some e → hasErrorCode e "NoSuchKey" = Except.ok true) →
       batchDeletes respond paths = (chunksOf (paths.map DelKey.mk), none))
  ∧ (∀ (respond : List DelKey → Option ErrVal) (k : DelKey) (ks : List DelKey) (e : ErrVal),
       respond ((k :: ks).take S3_MAX_DELETES) = some e →
       hasErrorCode e "NoSuchKey" = Except.ok false →
       batchGo respond (k :: ks) = ([(k :: ks).take S3_MAX_DELETES], some (Thrown.raw e))) := by
  refine ⟨fun paths => chunksOf_join _, fun paths c hc => chunksOf_mem_len _ _ hc, ?_, ?_, ?_⟩
  · constructor
    · unfold batchDeletes
      rw [List.map_replicate]
      rw [batchGo_all_ok _ (by intro c e h; cases h)]
      rw [chunksOf_repl2500]
      simp only [List.map_cons, List.map_nil, List.length_replicate]
    · unfold batchDeletes
      rw [List.map_replicate]
      rw [batchGo_all_ok _ (by intro c e h; cases h)]
  · intro respond paths hresp
    unfold batchDeletes
    exact batchGo_all_ok respond hresp _
  · intro respond k ks e hr he
    exact batchGo_abort respond k ks e hr he

/-- Claim C3 witness: a concrete two-key run submits one chunk holding
both keys, in order, with no error. -/
theorem batchDeletes_spec_witness :
    batchDeletes (fun _ => none) ["a", "b"] = ([[DelKey.mk "a", DelKey.mk "b"]], none) := by
  have h := batchDeletes_spec.2.2.2.1 (fun _ => none) ["a", "b"] (by intro c e he; cases he)
  rw [h]
  rw [show (["a", "b"].map DelKey.mk) = [DelKey.mk "a", DelKey.mk "b"] from rfl]
  rw [chunksOf_small _ (by simp) (by simp [S3_MAX_DELETES])]

/-- Claim C4 (counterexample): the store reports `lastModified = 5` for
the object `a/1`, yet the File Status produced by `list` carries
`updated_time = 99`, the current time — the claim that `updated_time`
equals the store-reported last-modified timestamp fails. -/
theorem list_ignores_lastModified_cex :
    listOp [{ name := "a/1", lastModified := some 5 }] (some "a") 99
      = Except.ok { items := [{ path := "1", updated_time := 99, isDeleted := false, isDir := false }],
                    hasMore := false }
  ∧ (99 : Nat) ≠ 5 := ⟨rfl, by norm_num⟩

/-- Claim C4 (amended): every File Status produced by `list` has
`updated_time` equal to the current time, because the listing collects
only object names and discards the last-modified metadata of the stream;
the store-reported timestamps are never consulted by `list`. -/
theorem list_updated_time_is_now (store : List StoreObj) (path : Option String) (now : Nat) :
    Except.map (fun r => List.map Stat.updated_time r.items) (listOp store path now)
      = Except.ok ((listObjectsNames store (listPfx path)).map (fun _ => now)) := by
  have h := metadataToStats_times (listObjectsNames store (listPfx path)) now
  unfold listOp
  cases hmr : metadataToStats (listObjectsNames store (listPfx path)) now with
  | ok l =>
    rw [hmr] at h
    simp [Except.map] at h ⊢
    exact h
  | error x =>
    rw [hmr] at h
    simp [Except.map] at h

/-- Claim C5 (confirmed): when the metadata lookup fails with a failure
classified `NotFound`, `stat` resolves with the absent sentinel (`none`)
and never raises; any other failure of the lookup propagates — the raw
failure when classification answers `false`, the classification exception
when classification itself throws. -/
theorem stat_notfound_dispatch (e : ErrVal) (path : String) (now : Nat) :
    (hasErrorCode e "NotFound" = Except.ok true →
       statOp (Except.error e) path now = Except.ok none)
  ∧ (hasErrorCode e "NotFound" = Except.ok false →
       statOp (Except.error e) path now = Except.error (Thrown.raw e))
  ∧ (∀ x, hasErrorCode e "NotFound" = Except.error x →
       statOp (Except.error e) path now = Except.error (Thrown.exn x)) := by
  refine ⟨fun h => ?_, fun h => ?_, fun x h => ?_⟩ <;> simp [statOp, h]

/-- Claim C5 witness: a lookup failure named `NotFound` makes `stat`
return the absent sentinel, and one named `AccessDenied` propagates. -/
theorem stat_notfound_dispatch_witness :
    statOp (Except.error (ErrVal.obj (JsVal.str "NotFound") JsVal.undefined JsVal.undefined JsVal.undefined none)) "p" 0
      = Except.ok none
  ∧ statOp (Except.error (ErrVal.obj (JsVal.str "AccessDenied") JsVal.undefined JsVal.undefined JsVal.undefined none)) "p" 0
      = Except.error (Thrown.raw (ErrVal.obj (JsVal.str "AccessDenied") JsVal.undefined JsVal.undefined JsVal.undefined none)) :=
  ⟨(stat_notfound_dispatch _ "p" 0).1 rfl, (stat_notfound_dispatch _ "p" 0).2.1 rfl⟩

/-- Claim C6 (confirmed): `move` is copy-then-delete; the outcome of the
un-awaited cleanup delete never reaches the result of `move`, a successful
copy makes `move` resolve with the delete initiated, a copy failure
classified `NoSuchKey` (the code realizes the claimed `NotFound`
classification through the `NoSuchKey` code) is swallowed, and any other
copy failure propagates. -/
theorem move_copy_delete_semantics (e : ErrVal) (d : Except ErrVal Unit) :
    (∀ (c : Except ErrVal Unit) (d' : Except ErrVal Unit), moveOp c d = moveOp c d')
  ∧ moveOp (Except.ok ()) d = { result := Except.ok (), deleteIssued := true }
  ∧ (hasErrorCode e "NoSuchKey" = Except.ok true →
       moveOp (Except.error e) d = { result := Except.ok (), deleteIssued := false })
  ∧ (hasErrorCode e "NoSuchKey" = Except.ok false →
       moveOp (Except.error e) d = { result := Except.error (Thrown.raw e), deleteIssued := false }) := by
  refine ⟨fun c d' => rfl, rfl, fun h => ?_, fun h => ?_⟩ <;> simp [moveOp, h]

/-- Claim C6 witness: a successful copy with a failing delete still
resolves, and a copy failure carrying the `NoSuchKey` code resolves
without initiating the delete. -/
theorem move_copy_delete_semantics_witness :
    moveOp (Except.ok ()) (Except.error ErrVal.undefined)
      = { result := Except.ok (), deleteIssued := true }
  ∧ moveOp (Except.error (ErrVal.obj (JsVal.str "NoSuchKey") JsVal.undefined JsVal.undefined JsVal.undefined none)) (Except.ok ())
      = { result := Except.ok (), deleteIssued := false } :=
  ⟨(move_copy_delete_semantics ErrVal.undefined (Except.error ErrVal.undefined)).2.1,
   (move_copy_delete_semantics (ErrVal.obj (JsVal.str "NoSuchKey") JsVal.undefined JsVal.undefined JsVal.undefined none) (Except.ok ())).2.2.1 rfl⟩

/-- Claim C7 (counterexample): for the non-empty path `a//` the prefix
passed to the listing operation is `a//` itself, which does not end in
exactly one trailing separator — the universally quantified claim fails. -/
theorem listPfx_double_slash_cex :
    listPfx (some "a//") = "a//"
  ∧ endsInExactlyOneSlash (listPfx (some "a//")) = false
  ∧ ("a//" : String) ≠ "" := by
  refine ⟨by decide, by decide, by decide⟩

/-- Claim C7 (amended): the empty or absent path normalizes to the empty
key, and for a non-empty path the listing prefix always ends in a
separator; it ends in exactly one separator whenever the path does not
already end in one (a path already ending in separators is passed through
unchanged). -/
theorem listPfx_trailing_slash (p : String) (hp : p ≠ "") :
    makePath none = ""
  ∧ makePath (some "") = ""
  ∧ lastChar (listPfx (some p)) = some '/'
  ∧ (lastChar p ≠ some '/' → endsInExactlyOneSlash (listPfx (some p)) = true) := by
  have hd : p.data ≠ [] := strNe_data p hp
  have hlen : 0 < p.length := by
    rw [String.length]
    exact List.length_pos.mpr hd
  refine ⟨rfl, rfl, ?_⟩
  unfold listPfx makePath
  simp only [hp, if_false]
  by_cases hl : lastChar p = some '/'
  · simp [hl, hlen]
  · have hcond : (0 < p.length ∧ lastChar p ≠ some '/') := ⟨hlen, hl⟩
    rw [if_pos hcond]
    have hdata : (p ++ "/").data = p.data ++ ['/'] := String.data_append p "/"
    constructor
    · unfold lastChar
      rw [hdata, List.getLast?_concat]
    · intro _
      unfold endsInExactlyOneSlash lastChar
      rw [hdata, List.getLast?_concat, List.dropLast_concat]
      simp only [decide_eq_true_eq]
      refine ⟨trivial, ?_⟩
      simpa [lastChar] using hl

/-- Claim C7 witness: the concrete path `a` yields the prefix `a/`,
ending in exactly one separator. -/
theorem listPfx_trailing_slash_witness :
    lastChar (listPfx (some "a")) = some '/'
  ∧ endsInExactlyOneSlash (listPfx (some "a")) = true :=
  ⟨(listPfx_trailing_slash "a" (by decide)).2.2.1,
   (listPfx_trailing_slash "a" (by decide)).2.2.2 (by decide)⟩

/-- Claim C8 (counterexample): a failure object whose `name` field is the
truthy non-string `1` makes the classifier call `indexOf` on a number,
which throws a `TypeError` — the claim that classification returns a
boolean without throwing for every shape fails. -/
theorem hasErrorCode_nonstring_throws_cex :
    hasErrorCode (ErrVal.obj (JsVal.num 1) JsVal.undefined JsVal.undefined JsVal.undefined none) "NotFound"
      = Except.error JsExn.typeError := rfl

/-- Claim C8 (amended): classification returns a boolean without throwing
for every failure value whose inspected field — the first truthy one among
`name`, `code`, `Code` — is a string or does not exist; in particular a
value with no truthy recognized field (including `null`, `undefined` and
primitives) classifies as matching nothing (`false`, the `Other`
outcome). Only a truthy non-string field makes the classifier throw. -/
theorem hasErrorCode_total_on_string_fields (e : ErrVal) (errorCode : String) :
    (inspectedField e = none → hasErrorCode e errorCode = Except.ok false)
  ∧ (∀ s, inspectedField e = some (JsVal.str s) →
       hasErrorCode e errorCode = Except.ok (jsContains s errorCode)) := by
  constructor
  · intro h
    match e with
    | .undefined => rfl
    | .nullv => rfl
    | .prim v =>
      unfold hasErrorCode
      split
      · rfl
      · rfl
    | .obj n c C m o =>
      unfold inspectedField at h
      unfold hasErrorCode
      by_cases h1 : n.truthy <;> by_cases h2 : c.truthy <;> by_cases h3 : C.truthy <;>
        simp [h1, h2, h3, ErrVal.truthy, ErrVal.nameField, ErrVal.codeField, ErrVal.CodeField] at h ⊢
  · intro s h
    match e with
    | .obj n c C m o =>
      unfold inspectedField at h
      unfold hasErrorCode
      by_cases h1 : n.truthy <;> by_cases h2 : c.truthy <;> by_cases h3 : C.truthy <;>
        simp [h1, h2, h3, ErrVal.truthy, ErrVal.nameField, ErrVal.codeField, ErrVal.CodeField] at h ⊢ <;>
        (subst h; simp [jsIndexOfGe0])

/-- Claim C8 witness: the nullish failure classifies as `false` without
throwing, and a string-named failure classifies by containment. -/
theorem hasErrorCode_total_witness :
    hasErrorCode ErrVal.undefined "NotFound" = Except.ok false
  ∧ hasErrorCode (ErrVal.obj (JsVal.str "AccessDenied") JsVal.undefined JsVal.undefined JsVal.undefined none) "NotFound"
      = Except.ok false :=
  ⟨(hasErrorCode_total_on_string_fields ErrVal.undefined "NotFound").1 rfl,
   by rw [(hasErrorCode_total_on_string_fields
        (ErrVal.obj (JsVal.str "AccessDenied") JsVal.undefined JsVal.undefined JsVal.undefined none)
        "NotFound").2 "AccessDenied" rfl]
      rfl⟩

/-- Claim C9 (confirmed): the stat translator never raises — for every
metadata value (with presence taken as the JavaScript truthiness test
`if (md)` the code uses), it yields a status whose `isDeleted` is true
exactly when the metadata is absent (falsy), whose `updated_time` is the
current time whenever the metadata is absent, and whose `isDir` is always
false. -/
theorem metadataToStat_invariants (md : MdVal) (path : String) (now : Nat) :
    Except.map Stat.isDeleted (metadataToStat md path now) = Except.ok (!md.truthy)
  ∧ (md.truthy = false →
       Except.map Stat.updated_time (metadataToStat md path now) = Except.ok now)
  ∧ Except.map Stat.isDir (metadataToStat md path now) = Except.ok false := by
  match md with
  | .undefined => exact ⟨rfl, fun _ => rfl, rfl⟩
  | .str s =>
    by_cases hs : s = ""
    · subst hs
      exact ⟨rfl, fun _ => rfl, rfl⟩
    · refine ⟨?_, ?_, ?_⟩ <;>
        simp [metadataToStat, MdVal.truthy, hs, MdVal.lastModifiedField, Except.map]
  | .obj lm =>
    match lm with
    | none => exact ⟨rfl, by simp [MdVal.truthy], rfl⟩
    | some v => exact ⟨rfl, by simp [MdVal.truthy], rfl⟩

/-- Claim C9 witness: absent metadata yields a non-raising deleted status
stamped with the current time. -/
theorem metadataToStat_invariants_witness :
    Except.map Stat.isDeleted (metadataToStat MdVal.undefined "a/b" 7) = Except.ok true
  ∧ Except.map Stat.updated_time (metadataToStat MdVal.undefined "a/b" 7) = Except.ok 7 :=
  ⟨(metadataToStat_invariants MdVal.undefined "a/b" 7).1,
   (metadataToStat_invariants MdVal.undefined "a/b" 7).2.1 rfl⟩

/-- Claim C10 (confirmed): when the target is not `file` and the response
format is set (present and truthy, per the `||` defaulting of the source)
to something other than `text`, `get` obtains a presigned URL, performs no
blob or text fetch, and returns `null` — the only transport request issued
is the presign. -/
theorem get_nontext_skips_fetch (env : GetEnv) (path : Option String)
    (target : Option String) (rf : String) (url : String)
    (htarget : target ≠ some "file") (hrf : rf ≠ "text") (hrf2 : rf ≠ "")
    (hpres : env.presign (makePath path) = Except.ok url) :
    getTry env path (some { target := target, responseFormat := some rf })
      = (Except.ok GetOut.retNull, [GetAction.presignA (makePath path)]) := by
  simp [getTry, hpres, htarget, hrf, hrf2]

/-- Claim C10 witness: a `json` response format with no file target
issues only the presign and returns `null`. -/
theorem get_nontext_skips_fetch_witness :
    getTry simpleGetEnv (some "k") (some { target := none, responseFormat := some "json" })
      = (Except.ok GetOut.retNull, [GetAction.presignA "k"]) :=
  get_nontext_skips_fetch simpleGetEnv (some "k") none "json" "https://signed"
    (by decide) (by decide) (by decide) rfl
